import Mathlib

/-!
Verification development for the link-preview MCP server
(`src/server.ts` and the unnamed variant of the same server).

The server's pure decision logic is shallowly embedded here:

* `extractPreview` models `fetchLinkPreview`'s metadata extraction over a
  parsed document (the HTML parsing library is treated as a capability, so a
  document is modelled by the query results the code reads from it: the
  `lang` attribute, the list of `<meta>` tags in document order, and the
  `<title>` text).
* `getFavicon` / `fetchLinkPreviewM` model the favicon probe and the
  enclosing preview fetch over an explicit fetch capability that may fail.
* `getPageContent` models the `get_page_content` tool handler over a DOM
  tree: boilerplate removal, `article`/`main`/`body` selection, whitespace
  normalisation and `slice` truncation, with the JS `Number(x) || 5000`
  default for `maxLength`.
* `searchScan` / `searchWebResults` / `searchTool` model `searchWeb` and the
  `search_web` handler branch.

JavaScript-specific semantics (truthiness, `String(undefined)`,
`Number(x) || d`, `String.prototype.slice`) are modelled explicitly by the
`js*` helpers.
-/

namespace LinkPreviewMCP

/-- JS truthiness of a possibly-absent string: `undefined` and `""` are
falsy, every other string is truthy. -/
def jsT : Option String → Bool
  | none => false
  | some s => !(s = "")

/-- JS `s || undefined` for a string `s`: empty string becomes absent. -/
def jsOrUndef (s : String) : Option String :=
  if s = "" then none else some s

/-- JS `x || undefined` for a possibly-absent string `x`. -/
def jsStrOrNone : Option String → Option String
  | none => none
  | some s => jsOrUndef s

/-- JS `String(x)` where `x` is a string argument or `undefined`
(a missing argument stringifies to the literal text `"undefined"`). -/
def jsStringCoerce : Option String → String
  | none => "undefined"
  | some s => s

/-- JS `Number(x) || d`: `NaN` (absent / non-numeric argument, modelled as
`none`) and `0` are falsy and fall back to the default `d`. -/
def jsNumOr (d : Int) : Option Int → Int
  | none => d
  | some n => if n = 0 then d else n

/-- Drop a leading run of whitespace characters. -/
def dropWs (l : List Char) : List Char :=
  l.dropWhile (fun c => c.isWhitespace)

/-- Trim whitespace from both ends of a character list (JS `trim`). -/
def trimChars (l : List Char) : List Char :=
  ((dropWs l).reverse |> dropWs).reverse

/-- JS `s.trim()`, modelled directly on the character list. -/
def jsTrim (s : String) : String :=
  String.mk (trimChars s.data)

/-- Collapse every maximal run of whitespace to a single space
(JS `replace` of one-or-more whitespace with a single space); the flag
records whether the previous character was part of a whitespace run. -/
def collapseWs : List Char → Bool → List Char
  | [], _ => []
  | c :: rest, prevWs =>
    if c.isWhitespace then
      (if prevWs then [] else [' ']) ++ collapseWs rest true
    else c :: collapseWs rest false

/-- JS `s.replace` of whitespace runs with a single space followed by
`trim`, as in the `get_page_content` handler. -/
def normalizeWs (s : String) : String :=
  String.mk (trimChars (collapseWs s.data false))

/-- The stop index of JS `slice(0, e)` over a sequence of length `n`:
a negative `e` counts from the end, a nonnegative `e` is clamped to `n`. -/
def sliceStop (e : Int) (n : Nat) : Nat :=
  (if e < 0 then max ((n : Int) + e) 0 else min e (n : Int)).toNat

/-- JS `s.slice(0, e)` on a string. -/
def jsSliceStr (s : String) (e : Int) : String :=
  String.mk (s.data.take (sliceStop e s.data.length))

/-- JS `l.slice(0, e)` on an array. -/
def jsSliceTake {α : Type} (e : Int) (l : List α) : List α :=
  l.take (sliceStop e l.length)

/-- Boolean prefix test on character lists. -/
def prefB : List Char → List Char → Bool
  | [], _ => true
  | _ :: _, [] => false
  | a :: as, b :: bs => a = b && prefB as bs

/-- Boolean substring test on character lists: `subB pat s` holds when `pat`
occurs contiguously inside `s`. -/
def subB (pat : List Char) : List Char → Bool
  | [] => prefB pat []
  | c :: rest => prefB pat (c :: rest) || subB pat rest

/-! ## The parsed-document model for `fetchLinkPreview`

The HTML parsing library is a capability; a document is modelled by exactly
the query results `fetchLinkPreview` reads: the root `lang` attribute, the
`<meta>` tags in document order (each with optional `property`, `name` and
`content` attributes), and the text of the `<title>` element. -/

/-- A `<meta>` tag as seen by the code: its `property`, `name` and
`content` attributes, each possibly absent. -/
structure MetaTag where
  property : Option String
  name : Option String
  content : Option String
deriving DecidableEq, Repr

/-- A parsed document, by the queries `fetchLinkPreview` performs on it. -/
structure Doc where
  lang : Option String
  metas : List MetaTag
  titleText : String
deriving DecidableEq, Repr

/-- The `LinkPreview` record of `server.ts`; optional fields model
properties that are absent (omitted by `JSON.stringify`) when `none`. -/
@[ext]
structure LinkPreview where
  url : String
  contentType : Option String := none
  language : Option String := none
  title : Option String := none
  description : Option String := none
  image : Option String := none
  siteName : Option String := none
  type : Option String := none
  urlCanonical : Option String := none
  twitterCard : Option String := none
  favicon : Option String := none
deriving DecidableEq, Repr

/-- The six `LinkPreview` fields settable from an `og:*` meta tag. -/
inductive OgF | ti | de | im | sn | ty | ur
deriving DecidableEq, Repr

/-- The four `LinkPreview` fields settable from a `twitter:*` meta tag. -/
inductive TwF | card | ti | de | im
deriving DecidableEq, Repr

/-- The `switch (property)` of the OpenGraph loop: which field a given
`property` value sets, if any. -/
def ogField (prop : String) : Option OgF :=
  if prop = "og:title" then some .ti
  else if prop = "og:description" then some .de
  else if prop = "og:image" then some .im
  else if prop = "og:site_name" then some .sn
  else if prop = "og:type" then some .ty
  else if prop = "og:url" then some .ur
  else none

/-- Set the `LinkPreview` field selected by an `OgF`. -/
def setOg (p : LinkPreview) (f : OgF) (c : String) : LinkPreview :=
  match f with
  | .ti => { p with title := some c }
  | .de => { p with description := some c }
  | .im => { p with image := some c }
  | .sn => { p with siteName := some c }
  | .ty => { p with type := some c }
  | .ur => { p with urlCanonical := some c }

/-- One iteration of the OpenGraph `.each` loop: skip the tag when
`property` or `content` is falsy, otherwise assign the mapped field. -/
def applyOgTag (p : LinkPreview) (m : MetaTag) : LinkPreview :=
  match m.property, m.content with
  | some prop, some c =>
    if prop = "" ∨ c = "" then p
    else
      match ogField prop with
      | some f => setOg p f c
      | none => p
  | _, _ => p

/-- The `if`/`else if` chain of the Twitter-card loop: which field a given
`name` value targets. -/
def twField (nm : String) : Option TwF :=
  if nm = "twitter:card" then some .card
  else if nm = "twitter:title" then some .ti
  else if nm = "twitter:description" then some .de
  else if nm = "twitter:image" then some .im
  else none

/-- One iteration of the Twitter-card `.each` loop: `twitter:card` is
assigned unconditionally; `twitter:title`/`description`/`image` are
assigned only when the field is still falsy. -/
def applyTwitterTag (p : LinkPreview) (m : MetaTag) : LinkPreview :=
  match m.name, m.content with
  | some nm, some c =>
    if nm = "" ∨ c = "" then p
    else
      match twField nm with
      | some .card => { p with twitterCard := some c }
      | some .ti => if jsT p.title then p else { p with title := some c }
      | some .de => if jsT p.description then p else { p with description := some c }
      | some .im => if jsT p.image then p else { p with image := some c }
      | none => p
  | _, _ => p

/-- The CSS attribute selector `meta[property^="og:"]`. -/
def ogSel (m : MetaTag) : Bool :=
  match m.property with
  | some p => prefB "og:".data p.data
  | none => false

/-- The CSS attribute selector `meta[name^="twitter:"]`. -/
def twSel (m : MetaTag) : Bool :=
  match m.name with
  | some n => prefB "twitter:".data n.data
  | none => false

/-- The CSS attribute selector `meta[name="description"]`. -/
def descSel (m : MetaTag) : Bool :=
  match m.name with
  | some n => n = "description"
  | none => false

/-- The tags matched by `meta[property^="og:"]`, in document order. -/
def ogMetas (doc : Doc) : List MetaTag :=
  doc.metas.filter ogSel

/-- The tags matched by `meta[name^="twitter:"]`, in document order. -/
def twitterMetas (doc : Doc) : List MetaTag :=
  doc.metas.filter twSel

/-- The tags matched by `meta[name="description"]`, in document order. -/
def descMetas (doc : Doc) : List MetaTag :=
  doc.metas.filter descSel

/-- The description-fallback `.each` loop: the first tag with a truthy
`content` attribute supplies the value and stops the loop. -/
def firstTruthyDesc : List MetaTag → Option String
  | [] => none
  | m :: rest =>
    match m.content with
    | some c => if c = "" then firstTruthyDesc rest else some c
    | none => firstTruthyDesc rest

/-- The preview record before any meta scan: `url`, `contentType` from the
response header (`|| undefined`), `language` from the `lang` attribute
(`|| undefined`). -/
def initPreview (url : String) (ct : Option String) (doc : Doc) : LinkPreview :=
  { url := url, contentType := jsStrOrNone ct, language := jsStrOrNone doc.lang }

/-- The OpenGraph scan phase of `fetchLinkPreview`. -/
def ogPhase (doc : Doc) (p : LinkPreview) : LinkPreview :=
  (ogMetas doc).foldl applyOgTag p

/-- The Twitter-card scan phase of `fetchLinkPreview`. -/
def twPhase (doc : Doc) (p : LinkPreview) : LinkPreview :=
  (twitterMetas doc).foldl applyTwitterTag p

/-- The `<title>` fallback: when `preview.title` is falsy, assign the
trimmed `<title>` text `|| undefined`. -/
def titleFallback (doc : Doc) (p : LinkPreview) : LinkPreview :=
  if jsT p.title then p else { p with title := jsOrUndef (jsTrim doc.titleText) }

/-- The `meta[name="description"]` fallback: when `preview.description` is
falsy, assign the first truthy `content`, if any. -/
def descFallback (doc : Doc) (p : LinkPreview) : LinkPreview :=
  if jsT p.description then p
  else
    match firstTruthyDesc (descMetas doc) with
    | some c => { p with description := some c }
    | none => p

/-- The pure extraction part of `fetchLinkPreview`: the four phases in
source order, then the favicon assignment. -/
def extractPreview (url : String) (ct : Option String) (doc : Doc)
    (fav : Option String) : LinkPreview :=
  { descFallback doc (titleFallback doc (twPhase doc (ogPhase doc (initPreview url ct doc))))
      with favicon := fav }

/-! ## The spec-side pure builder (`previewSpec`)

`previewSpec` restates the precedence rules as a pure per-field choice:
for each field, an ordered candidate list, first truthy candidate wins —
except that within one scan a later duplicate `og:*` tag (and a later
`twitter:card`) overwrites an earlier one, so the OpenGraph candidate per
field is the LAST truthy duplicate, while the Twitter candidates for
`title`/`description`/`image` are first-wins. `extract_eq_spec` proves the
mutable-record code equal to this builder. -/

/-- The truthy `content` of a tag when the OpenGraph loop would route it to
field `f`, else `none`. -/
def ogValF (f : OgF) (m : MetaTag) : Option String :=
  match m.property, m.content with
  | some prop, some c =>
    if prop = "" ∨ c = "" then none
    else if ogField prop = some f then some c else none
  | _, _ => none

/-- The truthy `content` of a tag when the Twitter loop would route it to
field `f`, else `none`. -/
def twValF (f : TwF) (m : MetaTag) : Option String :=
  match m.name, m.content with
  | some nm, some c =>
    if nm = "" ∨ c = "" then none
    else if twField nm = some f then some c else none
  | _, _ => none

/-- The last element of `l` as an option, with default `d`: the value of a
field after a scan in which every element of `l` overwrote it in order. -/
def lastD (l : List String) (d : Option String) : Option String :=
  match l with
  | [] => d
  | c :: rest => lastD rest (some c)

/-- First-wins choice between an earlier candidate and a later fallback. -/
def pick (a b : Option String) : Option String :=
  match a with
  | some c => some c
  | none => b

/-- The truthy OpenGraph candidates for field `f`, in document order. -/
def ogContents (f : OgF) (doc : Doc) : List String :=
  (ogMetas doc).filterMap (ogValF f)

/-- The truthy Twitter candidates for field `f`, in document order. -/
def twContents (f : TwF) (doc : Doc) : List String :=
  (twitterMetas doc).filterMap (twValF f)

/-- The preview as an immutable per-field first-non-empty choice
(with last-duplicate-wins inside the OpenGraph scan and for
`twitter:card`), following the amended precedence rules. -/
def previewSpec (url : String) (ct : Option String) (doc : Doc)
    (fav : Option String) : LinkPreview :=
  { url := url
    contentType := jsStrOrNone ct
    language := jsStrOrNone doc.lang
    title := pick (lastD (ogContents .ti doc) none)
      (pick (twContents .ti doc).head? (jsOrUndef (jsTrim doc.titleText)))
    description := pick (lastD (ogContents .de doc) none)
      (pick (twContents .de doc).head? (firstTruthyDesc (descMetas doc)))
    image := pick (lastD (ogContents .im doc) none) (twContents .im doc).head?
    siteName := lastD (ogContents .sn doc) none
    type := lastD (ogContents .ty doc) none
    urlCanonical := lastD (ogContents .ur doc) none
    twitterCard := lastD (twContents .card doc) none
    favicon := fav }

/-! ## The fetch capability, favicon probe and tool guard -/

/-- The failures `fetchWithTimeout` can raise: an abort on timeout or a
network (DNS/connection/TLS) failure. -/
inductive FetchError
  | timeoutErr
  | networkErr
deriving DecidableEq, Repr

/-- A successful HTTP response, carrying what the preview path reads from
it: `response.ok`, the `content-type` header, and the parsed body. -/
structure FetchResponse where
  ok : Bool
  contentType : Option String
  doc : Doc
deriving DecidableEq, Repr

/-- `getFavicon`: derive `origin + "/favicon.ico"` (the `URL` constructor
may throw, modelled by the `parseOrigin` capability returning `none`),
probe it with the fetch capability, and return the favicon URL only on an
`ok` response; every failure is caught and yields `none`. -/
def getFavicon (parseOrigin : String → Option String)
    (fetcher : String → Except FetchError FetchResponse) (url : String) :
    Option String :=
  match parseOrigin url with
  | none => none
  | some origin =>
    let faviconUrl := origin ++ "/favicon.ico"
    match fetcher faviconUrl with
    | .error _ => none
    | .ok r => if r.ok then some faviconUrl else none

/-- The favicon probe fails for `url` in the given world: the URL does not
parse, or the probe fetch raises, or the response is not `ok`. -/
def faviconFails (parseOrigin : String → Option String)
    (fetcher : String → Except FetchError FetchResponse) (url : String) :
    Bool :=
  match parseOrigin url with
  | none => true
  | some origin =>
    match fetcher (origin ++ "/favicon.ico") with
    | .error _ => true
    | .ok r => !r.ok

/-- `fetchLinkPreview` over the fetch capability: fetch the page (errors
propagate), then extract the preview with the probed favicon. -/
def fetchLinkPreviewM (parseOrigin : String → Option String)
    (fetcher : String → Except FetchError FetchResponse) (url : String) :
    Except FetchError LinkPreview :=
  match fetcher url with
  | .error e => .error e
  | .ok r =>
    .ok (extractPreview url r.contentType r.doc
      (getFavicon parseOrigin fetcher url))

/-- The argument guard of the `fetch_link_preview` handler branch:
`const url = String(args?.url); if (!url) throw new Error("URL is required")`.
`.ok u` means the guard passed and `fetchLinkPreview(u)` is invoked (a
network fetch of `u` is attempted); `.error` is the thrown message, which
the catch clause turns into the `{error: message}` payload with the error
flag set. -/
def fetchPreviewGuard (urlArg : Option String) : Except String String :=
  let url := jsStringCoerce urlArg
  if url = "" then .error "URL is required" else .ok url

/-! ## The DOM model for `get_page_content`

`get_page_content` needs real tree structure (element removal and text
extraction), so documents are modelled as rose trees. A mutually inductive
node/list pair keeps every definition structurally recursive. -/

mutual
/-- A DOM node: a text node or an element with a tag and children. -/
inductive Node where
  | text (s : String)
  | elem (tag : String) (children : NodeList)
/-- A list of sibling DOM nodes. -/
inductive NodeList where
  | nil
  | cons (n : Node) (rest : NodeList)
end

/-- The boilerplate selector of the `get_page_content` branch:
`"script, style, nav, header, footer, iframe, noscript, aside, form, button"`. -/
def isBoilerplate (t : String) : Bool :=
  decide (t = "script" ∨ t = "style" ∨ t = "nav" ∨ t = "header" ∨
    t = "footer" ∨ t = "iframe" ∨ t = "noscript" ∨ t = "aside" ∨
    t = "form" ∨ t = "button")

mutual
/-- `.remove()` of the boilerplate selector, on one node: `none` when the
node is a removed element, otherwise the node with its subtree cleaned. -/
def pruneNode : Node → Option Node
  | .text s => some (.text s)
  | .elem t cs => if isBoilerplate t then none else some (.elem t (pruneList cs))
/-- `.remove()` of the boilerplate selector, on a sibling list. -/
def pruneList : NodeList → NodeList
  | .nil => .nil
  | .cons n rest =>
    match pruneNode n with
    | some n2 => .cons n2 (pruneList rest)
    | none => pruneList rest
end

mutual
/-- `.text()` of one node: the concatenated text-node data of its subtree. -/
def textOfNode : Node → String
  | .text s => s
  | .elem _ cs => textOfList cs
/-- `.text()` of a sibling list. -/
def textOfList : NodeList → String
  | .nil => ""
  | .cons n rest => textOfNode n ++ textOfList rest
end

mutual
/-- The texts of all elements with tag `t` in one node's subtree, in
document order (as `$(sel).text()` concatenates over every match). -/
def tagTextsNode (t : String) : Node → List String
  | .text _ => []
  | .elem tg cs => (if tg = t then [textOfList cs] else []) ++ tagTextsList t cs
/-- The texts of all elements with tag `t` under a sibling list. -/
def tagTextsList (t : String) : NodeList → List String
  | .nil => []
  | .cons n rest => tagTextsNode t n ++ tagTextsList t rest
end

/-- `$(t).text()` over a document: concatenation of each matched element's
text. -/
def textByTag (t : String) (l : NodeList) : String :=
  String.join (tagTextsList t l)

mutual
/-- Deletion of every `<script>` element from one node (used to state that
scripts cannot influence the output). -/
def stripNode : Node → Option Node
  | .text s => some (.text s)
  | .elem t cs => if t = "script" then none else some (.elem t (stripList cs))
/-- Deletion of every `<script>` element from a sibling list. -/
def stripList : NodeList → NodeList
  | .nil => .nil
  | .cons n rest =>
    match stripNode n with
    | some n2 => .cons n2 (stripList rest)
    | none => stripList rest
end

/-- The content selection of the `get_page_content` branch: remove the
boilerplate set, then `$("article").text() || $("main").text() ||
$("body").text()`. -/
def selectContent (doc : NodeList) : String :=
  let pruned := pruneList doc
  let a := textByTag "article" pruned
  let m := textByTag "main" pruned
  if a ≠ "" then a else if m ≠ "" then m else textByTag "body" pruned

/-- The `get_page_content` handler's text pipeline: select, collapse
whitespace, trim, then `slice(0, maxLength)` with
`maxLength = Number(args?.maxLength) || 5000`. -/
def getPageContent (doc : NodeList) (maxLenArg : Option Int) : String :=
  jsSliceStr (normalizeWs (selectContent doc)) (jsNumOr 5000 maxLenArg)

/-! ## The search model for `searchWeb` / `search_web` -/

/-- A `.result` block, by the queries the loop performs on it: the `href`
attribute of the title anchor (absent when no anchor exists), the title
anchor's text, and the snippet element's text (both `""` when the element
is missing). -/
structure ResultBlock where
  href : Option String
  titleRaw : String
  snippetRaw : String
deriving DecidableEq, Repr

/-- One emitted search result. -/
structure SearchResult where
  title : String
  url : String
  snippet : String
deriving DecidableEq, Repr

/-- The result, if any, a single block contributes: included only when
`href` is truthy and the trimmed title is non-empty. -/
def blockResult (b : ResultBlock) : Option SearchResult :=
  match b.href with
  | none => none
  | some u =>
    if u = "" then none
    else if jsTrim b.titleRaw = "" then none
    else some ⟨jsTrim b.titleRaw, u, jsTrim b.snippetRaw⟩

/-- One iteration of the `.each` accumulation loop of `searchWeb`: push a
record when the `url && title` check passes. -/
def searchStep (acc : List SearchResult) (b : ResultBlock) : List SearchResult :=
  match b.href with
  | some u =>
    if u ≠ "" ∧ jsTrim b.titleRaw ≠ "" then
      acc ++ [⟨jsTrim b.titleRaw, u, jsTrim b.snippetRaw⟩]
    else acc
  | none => acc

/-- The `.each` accumulation loop of `searchWeb`. -/
def searchScan (blocks : List ResultBlock) : List SearchResult :=
  blocks.foldl searchStep []

/-- `searchWeb`'s return value: the accumulated results, `slice(0, 10)`. -/
def searchWebResults (blocks : List ResultBlock) : List SearchResult :=
  (searchScan blocks).take 10

/-- The `search_web` handler branch: `searchWeb` then
`slice(0, Number(args?.numResults) || 10)`. -/
def searchTool (blocks : List ResultBlock) (numArg : Option Int) :
    List SearchResult :=
  jsSliceTake (jsNumOr 10 numArg) (searchWebResults blocks)

/-- The `LinkPreview` projection for each OpenGraph-mapped field. -/
def ogGet : OgF → LinkPreview → Option String
  | .ti, p => p.title
  | .de, p => p.description
  | .im, p => p.image
  | .sn, p => p.siteName
  | .ty, p => p.type
  | .ur, p => p.urlCanonical

/-- Point-wise form of boilerplate removal on an optional node. -/
def pruneOptN : Option Node → Option Node
  | none => none
  | some n => pruneNode n

/-! ## Concrete inputs used by counterexamples and witnesses -/

/-- A document carrying two truthy `og:title` tags, `"A"` then `"B"`. -/
def docDup : Doc :=
  { lang := none
    titleText := ""
    metas := [ { property := some "og:title", name := none, content := some "A" },
               { property := some "og:title", name := none, content := some "B" } ] }

/-- A document with one truthy `og:title` and one truthy `twitter:title`. -/
def docBoth : Doc :=
  { lang := none
    titleText := ""
    metas := [ { property := some "og:title", name := none, content := some "OG" },
               { property := none, name := some "twitter:title", content := some "TW" } ] }

/-- A document with no meta tags and a whitespace-only `<title>`. -/
def docBare : Doc := { lang := none, metas := [], titleText := "   " }

/-- The empty parsed document for the fetch-capability witnesses. -/
def emptyDoc : Doc := { lang := none, metas := [], titleText := "" }

/-- A DOM with a two-character body text. -/
def contentDoc : NodeList := .cons (.elem "body" (.cons (.text "hi") .nil)) .nil

/-- A DOM whose `<script>` text also occurs verbatim in a `<p>` element. -/
def scriptDoc : NodeList :=
  .cons (.elem "body"
    (.cons (.elem "p" (.cons (.text "ab") .nil))
      (.cons (.elem "script" (.cons (.text "ab") .nil)) .nil))) .nil

/-- The i-th of a family of distinct valid search-result blocks. -/
def mkBlock (i : Nat) : ResultBlock :=
  { href := some ("u" ++ toString i), titleRaw := "t" ++ toString i, snippetRaw := "" }

/-- Eleven distinct valid result blocks. -/
def blocks11 : List ResultBlock := (List.range 11).map mkBlock

/-- An origin parser that always succeeds with a fixed origin. -/
def poW : String → Option String := fun _ => some "http://e.com"

/-- A fetch world in which the favicon probe answers HTTP 404 (`ok = false`)
and every other fetch succeeds. -/
def fetcherW : String → Except FetchError FetchResponse := fun s =>
  if s = "http://e.com/favicon.ico" then
    .ok { ok := false, contentType := none, doc := emptyDoc }
  else .ok { ok := true, contentType := none, doc := emptyDoc }

/-! ## Generic lemmas about the mutable-record scan patterns -/

/-- A fold whose step overwrites the observed field with every hit of `g`
ends at the last hit (last duplicate wins), or at the initial value. -/
theorem foldl_last_gen {α β : Type} (f : β → α → β) (g : α → Option String)
    (get : β → Option String)
    (hstep : ∀ p m, get (f p m) = pick (g m) (get p)) :
    ∀ (l : List α) (p : β), get (l.foldl f p) = lastD (l.filterMap g) (get p)
  | [], _ => rfl
  | m :: rest, p => by
    have ih := foldl_last_gen f g get hstep rest (f p m)
    have hs := hstep p m
    rw [List.foldl_cons, List.filterMap_cons]
    cases hg : g m with
    | none =>
      rw [hg] at hs
      simp only [pick] at hs
      rw [ih, hs]
    | some c =>
      rw [hg] at hs
      simp only [pick] at hs
      rw [ih, hs]
      rfl

/-- A fold whose step sets the observed field only while it is falsy, from
truthy candidates, ends at the first hit of `g` (first wins), or keeps a
truthy initial value. -/
theorem foldl_first_gen {α β : Type} (f : β → α → β) (g : α → Option String)
    (get : β → Option String)
    (hstep : ∀ p m,
      get (f p m) = if jsT (get p) then get p else pick (g m) (get p))
    (htruthy : ∀ m c, g m = some c → c ≠ "") :
    ∀ (l : List α) (p : β),
      get (l.foldl f p) =
        if jsT (get p) then get p else pick (l.filterMap g).head? (get p)
  | [], p => by cases hb : jsT (get p) <;> simp [hb, pick]
  | m :: rest, p => by
    have ih := foldl_first_gen f g get hstep htruthy rest (f p m)
    have hs := hstep p m
    rw [List.foldl_cons, List.filterMap_cons]
    cases hb : jsT (get p) with
    | true =>
      rw [hb] at hs
      simp only [if_true] at hs
      rw [hs, hb] at ih
      simp only [if_true] at ih
      rw [ih]
      simp
    | false =>
      rw [hb] at hs
      simp only [Bool.false_eq_true, if_false] at hs
      cases hg : g m with
      | none =>
        rw [hg] at hs
        simp only [pick] at hs
        rw [hs, hb] at ih
        simp only [Bool.false_eq_true, if_false] at ih
        rw [ih]
        simp
      | some c =>
        rw [hg] at hs
        simp only [pick] at hs
        have hc : c ≠ "" := htruthy m c hg
        have hjc : jsT (some c) = true := by simp [jsT, hc]
        rw [hs, hjc] at ih
        simp only [if_true] at ih
        rw [ih]
        simp [pick]

/-- A fold whose step never changes the observed projection keeps it. -/
theorem foldl_const_gen {α β γ : Type} (f : β → α → β) (get : β → γ)
    (hstep : ∀ p m, get (f p m) = get p) :
    ∀ (l : List α) (p : β), get (l.foldl f p) = get p
  | [], _ => rfl
  | m :: rest, p => by
    rw [List.foldl_cons, foldl_const_gen f get hstep rest (f p m), hstep]

/-- `lastD` is the initial default, or the last element of the list. -/
theorem lastD_cases : ∀ (l : List String) (d : Option String),
    lastD l d = d ∨ ∃ c, c ∈ l ∧ lastD l d = some c
  | [], _ => Or.inl rfl
  | c :: rest, d => by
    cases lastD_cases rest (some c) with
    | inl h => exact Or.inr ⟨c, List.mem_cons_self c rest, h⟩
    | inr h =>
      obtain ⟨c2, hm, he⟩ := h
      exact Or.inr ⟨c2, List.mem_cons_of_mem _ hm, he⟩

/-- `pick a none = a`. -/
theorem pick_none_right (a : Option String) : pick a none = a := by
  cases a <;> rfl

/-- Filtering first does not change a `filterMap` whose function already
rejects everything the filter rejects. -/
theorem filterMap_of_filter {α β : Type} (q : α → Bool) (g : α → Option β)
    (h : ∀ m, q m = false → g m = none) :
    ∀ l : List α, (l.filter q).filterMap g = l.filterMap g
  | [] => rfl
  | m :: rest => by
    cases hq : q m with
    | false =>
      rw [List.filter_cons_of_neg (by simp [hq]), List.filterMap_cons,
        h m hq, filterMap_of_filter q g h rest]
    | true =>
      rw [List.filter_cons_of_pos (by simp [hq]), List.filterMap_cons,
        List.filterMap_cons, filterMap_of_filter q g h rest]

/-! ## Step lemmas for the two meta-tag scans -/

/-- One OpenGraph iteration overwrites field `f` exactly on a hit of
`ogValF f`. -/
theorem applyOg_get (f : OgF) (p : LinkPreview) (m : MetaTag) :
    ogGet f (applyOgTag p m) = pick (ogValF f m) (ogGet f p) := by
  rcases m with ⟨prop, nm, c⟩
  cases prop with
  | none => rfl
  | some prop =>
    cases c with
    | none => rfl
    | some c =>
      simp only [applyOgTag, ogValF]
      split
      · simp [pick]
      · cases hf : ogField prop with
        | none => simp [pick]
        | some f2 => cases f <;> cases f2 <;> simp [setOg, ogGet, pick]

/-- One OpenGraph iteration never touches the other record fields. -/
theorem applyOg_const (p : LinkPreview) (m : MetaTag) :
    (applyOgTag p m).twitterCard = p.twitterCard ∧
    (applyOgTag p m).url = p.url ∧
    (applyOgTag p m).contentType = p.contentType ∧
    (applyOgTag p m).language = p.language ∧
    (applyOgTag p m).favicon = p.favicon := by
  rcases m with ⟨prop, nm, c⟩
  cases prop with
  | none => exact ⟨rfl, rfl, rfl, rfl, rfl⟩
  | some prop =>
    cases c with
    | none => exact ⟨rfl, rfl, rfl, rfl, rfl⟩
    | some c =>
      simp only [applyOgTag]
      split
      · exact ⟨rfl, rfl, rfl, rfl, rfl⟩
      · cases hf : ogField prop with
        | none => exact ⟨rfl, rfl, rfl, rfl, rfl⟩
        | some f2 => cases f2 <;> exact ⟨rfl, rfl, rfl, rfl, rfl⟩

/-- A hit of `ogValF` is always a truthy (non-empty) string. -/
theorem ogValF_truthy (f : OgF) (m : MetaTag) (c : String)
    (h : ogValF f m = some c) : c ≠ "" := by
  rcases m with ⟨prop, nm, c0⟩
  cases prop <;> cases c0 <;> simp only [ogValF] at h
  all_goals try cases h
  split at h
  · cases h
  · split at h
    · rename_i hguard _
      cases h
      exact fun hc => hguard (Or.inr hc)
    · cases h

/-- A hit of `twValF` is always a truthy (non-empty) string. -/
theorem twValF_truthy (f : TwF) (m : MetaTag) (c : String)
    (h : twValF f m = some c) : c ≠ "" := by
  rcases m with ⟨prop, nm, c0⟩
  cases nm <;> cases c0 <;> simp only [twValF] at h
  all_goals try cases h
  split at h
  · cases h
  · split at h
    · rename_i hguard _
      cases h
      exact fun hc => hguard (Or.inr hc)
    · cases h

/-- A `property` the OpenGraph switch recognises starts with `"og:"`. -/
theorem ogField_pref (prop : String) (f : OgF) (h : ogField prop = some f) :
    prefB "og:".data prop.data = true := by
  unfold ogField at h
  split_ifs at h with h1 h2 h3 h4 h5 h6
  · subst h1; decide
  · subst h2; decide
  · subst h3; decide
  · subst h4; decide
  · subst h5; decide
  · subst h6; decide

/-- A `name` the Twitter chain recognises starts with `"twitter:"`. -/
theorem twField_pref (nm : String) (f : TwF) (h : twField nm = some f) :
    prefB "twitter:".data nm.data = true := by
  unfold twField at h
  split_ifs at h with h1 h2 h3 h4
  · subst h1; decide
  · subst h2; decide
  · subst h3; decide
  · subst h4; decide

/-- A tag the `og:` selector rejects contributes nothing to any og field. -/
theorem ogValF_of_sel (f : OgF) (m : MetaTag) (h : ogSel m = false) :
    ogValF f m = none := by
  rcases m with ⟨prop, nm, c⟩
  cases prop with
  | none => cases c <;> rfl
  | some prop =>
    cases c with
    | none => rfl
    | some c =>
      simp only [ogValF]
      split
      · rfl
      · cases hf : ogField prop with
        | none => simp
        | some f2 =>
          exfalso
          simp only [ogSel] at h
          rw [ogField_pref prop f2 hf] at h
          cases h

/-- A tag the `twitter:` selector rejects contributes nothing to any
twitter field. -/
theorem twValF_of_sel (f : TwF) (m : MetaTag) (h : twSel m = false) :
    twValF f m = none := by
  rcases m with ⟨prop, nm, c⟩
  cases nm with
  | none => cases c <;> rfl
  | some nm =>
    cases c with
    | none => rfl
    | some c =>
      simp only [twValF]
      split
      · rfl
      · cases hf : twField nm with
        | none => simp
        | some f2 =>
          exfalso
          simp only [twSel] at h
          rw [twField_pref nm f2 hf] at h
          cases h

/-- The og candidates can be read off the full tag list: the selector
filter drops only tags that contribute nothing. -/
theorem ogContents_eq_metas (f : OgF) (doc : Doc) :
    ogContents f doc = doc.metas.filterMap (ogValF f) :=
  filterMap_of_filter ogSel (ogValF f) (ogValF_of_sel f) doc.metas

/-- The twitter candidates can be read off the full tag list. -/
theorem twContents_eq_metas (f : TwF) (doc : Doc) :
    twContents f doc = doc.metas.filterMap (twValF f) :=
  filterMap_of_filter twSel (twValF f) (twValF_of_sel f) doc.metas

/-- One Twitter iteration overwrites `twitterCard` on every hit (no
already-set guard in the source). -/
theorem applyTw_card (p : LinkPreview) (m : MetaTag) :
    (applyTwitterTag p m).twitterCard = pick (twValF TwF.card m) p.twitterCard := by
  rcases m with ⟨prop, nm, c⟩
  cases nm with
  | none => cases c <;> rfl
  | some nm =>
    cases c with
    | none => rfl
    | some c =>
      simp only [applyTwitterTag, twValF]
      split
      · simp [pick]
      · cases hf : twField nm with
        | none => simp [pick]
        | some f2 => cases f2 <;> simp [pick] <;> split <;> rfl

/-- One Twitter iteration sets `title` only while it is falsy. -/
theorem applyTw_title (p : LinkPreview) (m : MetaTag) :
    (applyTwitterTag p m).title =
      if jsT p.title then p.title else pick (twValF TwF.ti m) p.title := by
  rcases m with ⟨prop, nm, c⟩
  cases nm with
  | none => cases c <;> cases hb : jsT p.title <;> simp [applyTwitterTag, twValF, pick, hb]
  | some nm =>
    cases c with
    | none => cases hb : jsT p.title <;> simp [applyTwitterTag, twValF, pick, hb]
    | some c =>
      simp only [applyTwitterTag, twValF]
      split
      · cases hb : jsT p.title <;> simp [pick, hb]
      · cases hf : twField nm with
        | none => cases hb : jsT p.title <;> simp [pick, hb]
        | some f2 =>
          cases f2 <;> cases hb : jsT p.title <;>
            simp [pick, hb] <;> split <;> simp_all

/-- One Twitter iteration sets `description` only while it is falsy. -/
theorem applyTw_desc (p : LinkPreview) (m : MetaTag) :
    (applyTwitterTag p m).description =
      if jsT p.description then p.description
      else pick (twValF TwF.de m) p.description := by
  rcases m with ⟨prop, nm, c⟩
  cases nm with
  | none =>
    cases c <;> cases hb : jsT p.description <;>
      simp [applyTwitterTag, twValF, pick, hb]
  | some nm =>
    cases c with
    | none => cases hb : jsT p.description <;> simp [applyTwitterTag, twValF, pick, hb]
    | some c =>
      simp only [applyTwitterTag, twValF]
      split
      · cases hb : jsT p.description <;> simp [pick, hb]
      · cases hf : twField nm with
        | none => cases hb : jsT p.description <;> simp [pick, hb]
        | some f2 =>
          cases f2 <;> cases hb : jsT p.description <;>
            simp [pick, hb] <;> split <;> simp_all

/-- One Twitter iteration sets `image` only while it is falsy. -/
theorem applyTw_image (p : LinkPreview) (m : MetaTag) :
    (applyTwitterTag p m).image =
      if jsT p.image then p.image else pick (twValF TwF.im m) p.image := by
  rcases m with ⟨prop, nm, c⟩
  cases nm with
  | none =>
    cases c <;> cases hb : jsT p.image <;> simp [applyTwitterTag, twValF, pick, hb]
  | some nm =>
    cases c with
    | none => cases hb : jsT p.image <;> simp [applyTwitterTag, twValF, pick, hb]
    | some c =>
      simp only [applyTwitterTag, twValF]
      split
      · cases hb : jsT p.image <;> simp [pick, hb]
      · cases hf : twField nm with
        | none => cases hb : jsT p.image <;> simp [pick, hb]
        | some f2 =>
          cases f2 <;> cases hb : jsT p.image <;>
            simp [pick, hb] <;> split <;> simp_all

/-- One Twitter iteration never touches the remaining record fields. -/
theorem applyTw_const (p : LinkPreview) (m : MetaTag) :
    (applyTwitterTag p m).siteName = p.siteName ∧
    (applyTwitterTag p m).type = p.type ∧
    (applyTwitterTag p m).urlCanonical = p.urlCanonical ∧
    (applyTwitterTag p m).url = p.url ∧
    (applyTwitterTag p m).contentType = p.contentType ∧
    (applyTwitterTag p m).language = p.language ∧
    (applyTwitterTag p m).favicon = p.favicon := by
  rcases m with ⟨prop, nm, c⟩
  cases nm with
  | none => cases c <;> exact ⟨rfl, rfl, rfl, rfl, rfl, rfl, rfl⟩
  | some nm =>
    cases c with
    | none => exact ⟨rfl, rfl, rfl, rfl, rfl, rfl, rfl⟩
    | some c =>
      simp only [applyTwitterTag]
      split
      · exact ⟨rfl, rfl, rfl, rfl, rfl, rfl, rfl⟩
      · cases hf : twField nm with
        | none => exact ⟨rfl, rfl, rfl, rfl, rfl, rfl, rfl⟩
        | some f2 =>
          cases f2 <;> refine ⟨?_, ?_, ?_, ?_, ?_, ?_, ?_⟩ <;>
            (try simp) <;> (try split) <;> rfl

/-! ## Phase characterisations -/

/-- After the OpenGraph scan, `title` is the last truthy `og:title`. -/
theorem ogPhase_title (doc : Doc) (p : LinkPreview) :
    (ogPhase doc p).title = lastD (ogContents OgF.ti doc) p.title :=
  foldl_last_gen applyOgTag (ogValF OgF.ti) (fun q => q.title)
    (applyOg_get OgF.ti) (ogMetas doc) p

/-- After the OpenGraph scan, `description` is the last truthy
`og:description`. -/
theorem ogPhase_desc (doc : Doc) (p : LinkPreview) :
    (ogPhase doc p).description = lastD (ogContents OgF.de doc) p.description :=
  foldl_last_gen applyOgTag (ogValF OgF.de) (fun q => q.description)
    (applyOg_get OgF.de) (ogMetas doc) p

/-- After the OpenGraph scan, `image` is the last truthy `og:image`. -/
theorem ogPhase_image (doc : Doc) (p : LinkPreview) :
    (ogPhase doc p).image = lastD (ogContents OgF.im doc) p.image :=
  foldl_last_gen applyOgTag (ogValF OgF.im) (fun q => q.image)
    (applyOg_get OgF.im) (ogMetas doc) p

/-- After the OpenGraph scan, `siteName` is the last truthy
`og:site_name`. -/
theorem ogPhase_siteName (doc : Doc) (p : LinkPreview) :
    (ogPhase doc p).siteName = lastD (ogContents OgF.sn doc) p.siteName :=
  foldl_last_gen applyOgTag (ogValF OgF.sn) (fun q => q.siteName)
    (applyOg_get OgF.sn) (ogMetas doc) p

/-- After the OpenGraph scan, `type` is the last truthy `og:type`. -/
theorem ogPhase_type (doc : Doc) (p : LinkPreview) :
    (ogPhase doc p).type = lastD (ogContents OgF.ty doc) p.type :=
  foldl_last_gen applyOgTag (ogValF OgF.ty) (fun q => q.type)
    (applyOg_get OgF.ty) (ogMetas doc) p

/-- After the OpenGraph scan, `urlCanonical` is the last truthy `og:url`. -/
theorem ogPhase_urlCanon (doc : Doc) (p : LinkPreview) :
    (ogPhase doc p).urlCanonical = lastD (ogContents OgF.ur doc) p.urlCanonical :=
  foldl_last_gen applyOgTag (ogValF OgF.ur) (fun q => q.urlCanonical)
    (applyOg_get OgF.ur) (ogMetas doc) p

/-- The OpenGraph scan never touches the non-og fields. -/
theorem ogPhase_const (doc : Doc) (p : LinkPreview) :
    (ogPhase doc p).twitterCard = p.twitterCard ∧
    (ogPhase doc p).url = p.url ∧
    (ogPhase doc p).contentType = p.contentType ∧
    (ogPhase doc p).language = p.language ∧
    (ogPhase doc p).favicon = p.favicon :=
  ⟨foldl_const_gen applyOgTag (fun q => q.twitterCard)
      (fun p m => (applyOg_const p m).1) (ogMetas doc) p,
   foldl_const_gen applyOgTag (fun q => q.url)
      (fun p m => (applyOg_const p m).2.1) (ogMetas doc) p,
   foldl_const_gen applyOgTag (fun q => q.contentType)
      (fun p m => (applyOg_const p m).2.2.1) (ogMetas doc) p,
   foldl_const_gen applyOgTag (fun q => q.language)
      (fun p m => (applyOg_const p m).2.2.2.1) (ogMetas doc) p,
   foldl_const_gen applyOgTag (fun q => q.favicon)
      (fun p m => (applyOg_const p m).2.2.2.2) (ogMetas doc) p⟩

/-- After the Twitter scan, `twitterCard` is the last truthy
`twitter:card` (no already-set guard in the source). -/
theorem twPhase_card (doc : Doc) (p : LinkPreview) :
    (twPhase doc p).twitterCard = lastD (twContents TwF.card doc) p.twitterCard :=
  foldl_last_gen applyTwitterTag (twValF TwF.card) (fun q => q.twitterCard)
    applyTw_card (twitterMetas doc) p

/-- After the Twitter scan, `title` keeps a truthy value, or takes the
first truthy `twitter:title`. -/
theorem twPhase_title (doc : Doc) (p : LinkPreview) :
    (twPhase doc p).title =
      if jsT p.title then p.title
      else pick (twContents TwF.ti doc).head? p.title :=
  foldl_first_gen applyTwitterTag (twValF TwF.ti) (fun q => q.title)
    applyTw_title (fun m c => twValF_truthy TwF.ti m c) (twitterMetas doc) p

/-- After the Twitter scan, `description` keeps a truthy value, or takes
the first truthy `twitter:description`. -/
theorem twPhase_desc (doc : Doc) (p : LinkPreview) :
    (twPhase doc p).description =
      if jsT p.description then p.description
      else pick (twContents TwF.de doc).head? p.description :=
  foldl_first_gen applyTwitterTag (twValF TwF.de) (fun q => q.description)
    applyTw_desc (fun m c => twValF_truthy TwF.de m c) (twitterMetas doc) p

/-- After the Twitter scan, `image` keeps a truthy value, or takes the
first truthy `twitter:image`. -/
theorem twPhase_image (doc : Doc) (p : LinkPreview) :
    (twPhase doc p).image =
      if jsT p.image then p.image
      else pick (twContents TwF.im doc).head? p.image :=
  foldl_first_gen applyTwitterTag (twValF TwF.im) (fun q => q.image)
    applyTw_image (fun m c => twValF_truthy TwF.im m c) (twitterMetas doc) p

/-- The Twitter scan never touches the non-twitter fields. -/
theorem twPhase_const (doc : Doc) (p : LinkPreview) :
    (twPhase doc p).siteName = p.siteName ∧
    (twPhase doc p).type = p.type ∧
    (twPhase doc p).urlCanonical = p.urlCanonical ∧
    (twPhase doc p).url = p.url ∧
    (twPhase doc p).contentType = p.contentType ∧
    (twPhase doc p).language = p.language ∧
    (twPhase doc p).favicon = p.favicon :=
  ⟨foldl_const_gen applyTwitterTag (fun q => q.siteName)
      (fun p m => (applyTw_const p m).1) (twitterMetas doc) p,
   foldl_const_gen applyTwitterTag (fun q => q.type)
      (fun p m => (applyTw_const p m).2.1) (twitterMetas doc) p,
   foldl_const_gen applyTwitterTag (fun q => q.urlCanonical)
      (fun p m => (applyTw_const p m).2.2.1) (twitterMetas doc) p,
   foldl_const_gen applyTwitterTag (fun q => q.url)
      (fun p m => (applyTw_const p m).2.2.2.1) (twitterMetas doc) p,
   foldl_const_gen applyTwitterTag (fun q => q.contentType)
      (fun p m => (applyTw_const p m).2.2.2.2.1) (twitterMetas doc) p,
   foldl_const_gen applyTwitterTag (fun q => q.language)
      (fun p m => (applyTw_const p m).2.2.2.2.2.1) (twitterMetas doc) p,
   foldl_const_gen applyTwitterTag (fun q => q.favicon)
      (fun p m => (applyTw_const p m).2.2.2.2.2.2) (twitterMetas doc) p⟩

/-- The `<title>` fallback on the `title` field. -/
theorem titleFallback_title (doc : Doc) (p : LinkPreview) :
    (titleFallback doc p).title =
      if jsT p.title then p.title else jsOrUndef (jsTrim doc.titleText) := by
  unfold titleFallback
  cases hb : jsT p.title <;> simp [hb]

/-- The `<title>` fallback never touches the other fields. -/
theorem titleFallback_const (doc : Doc) (p : LinkPreview) :
    (titleFallback doc p).description = p.description ∧
    (titleFallback doc p).image = p.image ∧
    (titleFallback doc p).siteName = p.siteName ∧
    (titleFallback doc p).type = p.type ∧
    (titleFallback doc p).urlCanonical = p.urlCanonical ∧
    (titleFallback doc p).twitterCard = p.twitterCard ∧
    (titleFallback doc p).url = p.url ∧
    (titleFallback doc p).contentType = p.contentType ∧
    (titleFallback doc p).language = p.language ∧
    (titleFallback doc p).favicon = p.favicon := by
  unfold titleFallback
  split <;> exact ⟨rfl, rfl, rfl, rfl, rfl, rfl, rfl, rfl, rfl, rfl⟩

/-- The `meta[name="description"]` fallback on the `description` field. -/
theorem descFallback_description (doc : Doc) (p : LinkPreview) :
    (descFallback doc p).description =
      if jsT p.description then p.description
      else pick (firstTruthyDesc (descMetas doc)) p.description := by
  unfold descFallback
  cases hb : jsT p.description with
  | true => simp [hb]
  | false =>
    simp only [hb, Bool.false_eq_true, if_false]
    cases hd : firstTruthyDesc (descMetas doc) <;> simp [pick]

/-- The description fallback never touches the other fields. -/
theorem descFallback_const (doc : Doc) (p : LinkPreview) :
    (descFallback doc p).title = p.title ∧
    (descFallback doc p).image = p.image ∧
    (descFallback doc p).siteName = p.siteName ∧
    (descFallback doc p).type = p.type ∧
    (descFallback doc p).urlCanonical = p.urlCanonical ∧
    (descFallback doc p).twitterCard = p.twitterCard ∧
    (descFallback doc p).url = p.url ∧
    (descFallback doc p).contentType = p.contentType ∧
    (descFallback doc p).language = p.language ∧
    (descFallback doc p).favicon = p.favicon := by
  unfold descFallback
  split
  · exact ⟨rfl, rfl, rfl, rfl, rfl, rfl, rfl, rfl, rfl, rfl⟩
  · cases firstTruthyDesc (descMetas doc) <;>
      exact ⟨rfl, rfl, rfl, rfl, rfl, rfl, rfl, rfl, rfl, rfl⟩

/-- Every og candidate is truthy. -/
theorem ogContents_truthy (f : OgF) (doc : Doc) :
    ∀ c ∈ ogContents f doc, c ≠ "" := by
  intro c hc
  obtain ⟨m, _, hm⟩ := List.mem_filterMap.mp hc
  exact ogValF_truthy f m c hm

/-- Every twitter candidate is truthy. -/
theorem twContents_truthy (f : TwF) (doc : Doc) :
    ∀ c ∈ twContents f doc, c ≠ "" := by
  intro c hc
  obtain ⟨m, _, hm⟩ := List.mem_filterMap.mp hc
  exact twValF_truthy f m c hm

/-- `lastD` over a truthy list is absent or truthy. -/
theorem lastD_truthy (l : List String) (h : ∀ c ∈ l, c ≠ "") :
    lastD l none = none ∨ ∃ c, lastD l none = some c ∧ c ≠ "" := by
  cases lastD_cases l none with
  | inl h0 => exact Or.inl h0
  | inr h0 =>
    obtain ⟨c, hm, he⟩ := h0
    exact Or.inr ⟨c, he, h c hm⟩

/-- The og-then-twitter stage followed by an unconditional fallback equals
the three-way first-truthy choice. -/
theorem twoPhase_pick (a : Option String)
    (ha : a = none ∨ ∃ c, a = some c ∧ c ≠ "")
    (twl : List String) (htw : ∀ c ∈ twl, c ≠ "") (fb : Option String) :
    (if jsT (if jsT a then a else pick twl.head? a)
     then (if jsT a then a else pick twl.head? a) else fb)
      = pick a (pick twl.head? fb) := by
  rcases ha with ha | ⟨c, ha, hc⟩
  · subst ha
    simp only [jsT, Bool.false_eq_true, if_false]
    cases htl : twl with
    | nil => simp [pick, jsT]
    | cons c rest =>
      have hc : c ≠ "" := htw c (htl ▸ List.mem_cons_self c rest)
      simp [pick, jsT, hc]
  · subst ha
    simp [jsT, hc, pick]

/-- As `twoPhase_pick`, for the description fallback that keeps the field
when no truthy fallback candidate exists. -/
theorem twoPhase_pick_desc (a : Option String)
    (ha : a = none ∨ ∃ c, a = some c ∧ c ≠ "")
    (twl : List String) (htw : ∀ c ∈ twl, c ≠ "") (fd : Option String) :
    (if jsT (if jsT a then a else pick twl.head? a)
     then (if jsT a then a else pick twl.head? a)
     else pick fd (if jsT a then a else pick twl.head? a))
      = pick a (pick twl.head? fd) := by
  rcases ha with ha | ⟨c, ha, hc⟩
  · subst ha
    simp only [jsT, Bool.false_eq_true, if_false]
    cases htl : twl with
    | nil => cases fd <;> simp [pick, jsT]
    | cons c rest =>
      have hc : c ≠ "" := htw c (htl ▸ List.mem_cons_self c rest)
      simp [pick, jsT, hc]
  · subst ha
    simp [jsT, hc, pick]

/-- The og-then-twitter stage with no further fallback equals the two-way
first-truthy choice. -/
theorem onePhase_pick (a : Option String)
    (ha : a = none ∨ ∃ c, a = some c ∧ c ≠ "")
    (twl : List String) :
    (if jsT a then a else pick twl.head? a) = pick a twl.head? := by
  rcases ha with ha | ⟨c, ha, hc⟩
  · subst ha
    cases twl <;> simp [pick, jsT]
  · subst ha
    simp [jsT, hc, pick]

/-- The mutable-record extraction equals the pure first-truthy builder:
this is the full functional characterisation of `fetchLinkPreview`'s
precedence behaviour. -/
theorem extract_eq_spec (url : String) (ct : Option String) (doc : Doc)
    (fav : Option String) :
    extractPreview url ct doc fav = previewSpec url ct doc fav := by
  obtain ⟨o1, o2, o3, o4, o5⟩ := ogPhase_const doc (initPreview url ct doc)
  obtain ⟨w1, w2, w3, w4, w5, w6, w7⟩ :=
    twPhase_const doc (ogPhase doc (initPreview url ct doc))
  obtain ⟨t1, t2, t3, t4, t5, t6, t7, t8, t9, t10⟩ :=
    titleFallback_const doc (twPhase doc (ogPhase doc (initPreview url ct doc)))
  obtain ⟨d1, d2, d3, d4, d5, d6, d7, d8, d9, d10⟩ :=
    descFallback_const doc
      (titleFallback doc (twPhase doc (ogPhase doc (initPreview url ct doc))))
  simp only [extractPreview, previewSpec]
  apply LinkPreview.ext <;> dsimp only
  · rw [d7, t7, w4, o2]; rfl
  · rw [d8, t8, w5, o3]; rfl
  · rw [d9, t9, w6, o4]; rfl
  · -- title
    rw [d1, titleFallback_title, twPhase_title, ogPhase_title]
    have hinit : (initPreview url ct doc).title = none := rfl
    rw [hinit]
    exact twoPhase_pick (lastD (ogContents OgF.ti doc) none)
      (lastD_truthy _ (ogContents_truthy OgF.ti doc))
      (twContents TwF.ti doc) (twContents_truthy TwF.ti doc) _
  · -- description
    rw [descFallback_description, t1, twPhase_desc, ogPhase_desc]
    have hinit : (initPreview url ct doc).description = none := rfl
    rw [hinit]
    exact twoPhase_pick_desc (lastD (ogContents OgF.de doc) none)
      (lastD_truthy _ (ogContents_truthy OgF.de doc))
      (twContents TwF.de doc) (twContents_truthy TwF.de doc) _
  · -- image
    rw [d2, t2, twPhase_image, ogPhase_image]
    have hinit : (initPreview url ct doc).image = none := rfl
    rw [hinit]
    exact onePhase_pick (lastD (ogContents OgF.im doc) none)
      (lastD_truthy _ (ogContents_truthy OgF.im doc))
      (twContents TwF.im doc)
  · rw [d3, t3, w1, ogPhase_siteName]; rfl
  · rw [d4, t4, w2, ogPhase_type]; rfl
  · rw [d5, t5, w3, ogPhase_urlCanon]; rfl
  · rw [d6, t6, twPhase_card, o1]; rfl

/-! ## Lemmas about the content pipeline -/

mutual
/-- Deleting the scripts first does not change boilerplate removal
(node level): scripts are part of the boilerplate set. -/
theorem prune_strip_node : ∀ n : Node, pruneOptN (stripNode n) = pruneNode n
  | .text _ => rfl
  | .elem t cs => by
    by_cases h : t = "script"
    · subst h
      have hb : isBoilerplate "script" = true := by decide
      simp [stripNode, pruneNode, pruneOptN, hb]
    · simp only [stripNode, if_neg h, pruneOptN, pruneNode, prune_strip_list cs]
/-- Deleting the scripts first does not change boilerplate removal
(sibling-list level). -/
theorem prune_strip_list : ∀ l : NodeList, pruneList (stripList l) = pruneList l
  | .nil => rfl
  | .cons n rest => by
    have hn := prune_strip_node n
    simp only [stripList, pruneList]
    cases hs : stripNode n with
    | none =>
      rw [hs] at hn
      simp only [pruneOptN] at hn
      rw [← hn]
      exact prune_strip_list rest
    | some n2 =>
      rw [hs] at hn
      simp only [pruneOptN] at hn
      simp only [pruneList, hn]
      cases hp : pruneNode n with
      | none => exact prune_strip_list rest
      | some n3 => rw [prune_strip_list rest]
end

/-- The slice stop index is bounded by a nonnegative requested end. -/
theorem sliceStop_le (e : Int) (n : Nat) (he : 0 ≤ e) :
    (sliceStop e n : Int) ≤ e := by
  unfold sliceStop
  rw [if_neg (by omega)]
  omega

/-- A JS string slice with nonnegative end never exceeds that end. -/
theorem jsSliceStr_length_le (s : String) (e : Int) (he : 0 ≤ e) :
    ((jsSliceStr s e).length : Int) ≤ e := by
  have h1 : (jsSliceStr s e).length ≤ sliceStop e s.data.length := by
    show (s.data.take (sliceStop e s.data.length)).length ≤ _
    exact List.length_take_le _ _
  have h2 := sliceStop_le e s.data.length he
  omega

/-- A JS array slice never lengthens the array. -/
theorem jsSliceTake_le_length {α : Type} (e : Int) (l : List α) :
    (jsSliceTake e l).length ≤ l.length := by
  unfold jsSliceTake
  rw [List.length_take]
  omega

/-! ## Lemmas about the search scan -/

/-- One scan step appends exactly the block's contribution. -/
theorem searchStep_eq (acc : List SearchResult) (b : ResultBlock) :
    searchStep acc b = acc ++ (blockResult b).toList := by
  unfold searchStep blockResult
  cases b.href with
  | none => simp
  | some u =>
    by_cases hu : u = ""
    · simp [hu]
    · by_cases ht : jsTrim b.titleRaw = ""
      · simp [hu, ht]
      · simp [hu, ht]

/-- The accumulation loop, generalised over the accumulator. -/
theorem searchScan_aux : ∀ (blocks : List ResultBlock) (acc : List SearchResult),
    blocks.foldl searchStep acc = acc ++ blocks.filterMap blockResult
  | [], acc => by simp
  | b :: rest, acc => by
    rw [List.foldl_cons, searchScan_aux rest (searchStep acc b), searchStep_eq]
    cases hb : blockResult b <;> simp [List.filterMap_cons, hb]

/-- The scan is the order-preserving collection of block contributions. -/
theorem searchScan_eq (blocks : List ResultBlock) :
    searchScan blocks = blocks.filterMap blockResult := by
  unfold searchScan
  rw [searchScan_aux blocks []]
  rfl

/-- A nonempty list has a last element and `lastD` returns it. -/
theorem lastD_of_ne_nil : ∀ l : List String, l ≠ [] →
    ∃ c, c ∈ l ∧ lastD l none = some c
  | [], hl => absurd rfl hl
  | c :: rest, _ => by
    cases lastD_cases rest (some c) with
    | inl h => exact ⟨c, List.mem_cons_self c rest, h⟩
    | inr h =>
      obtain ⟨c2, hm, he⟩ := h
      exact ⟨c2, List.mem_cons_of_mem _ hm, he⟩

/-! ## The claims -/

/-- C1, counterexample: in `docDup` the first truthy `og:title` value is
`"A"`, yet the extracted title is `"B"`: the second, later-scanned
`og:title` tag changed the `title` field that the first tag had already
set, so a field is NOT always set at most once by the first rule in
precedence order that supplies a non-empty value. -/
theorem c1_counterexample :
    (docDup.metas.filterMap (ogValF OgF.ti)).head? = some "A" ∧
    (extractPreview "u" none docDup none).title = some "B" :=
  ⟨by decide, by decide⟩

/-- C1, amended: a field set by an earlier PHASE is never changed by a
later phase (Twitter values never overwrite truthy OpenGraph values, and
the fallbacks apply only to still-unset fields), but within one scan a
later duplicate tag of the same kind overwrites: each og-mapped field ends
at the LAST truthy duplicate, as does `twitter:card`, while
`twitter:title`/`description`/`image` are first-wins within the Twitter
scan. Formally, the mutable-record extraction equals the pure per-field
builder `previewSpec` that spells out exactly this precedence. -/
theorem c1_amended_precedence (url : String) (ct : Option String) (doc : Doc)
    (fav : Option String) :
    extractPreview url ct doc fav = previewSpec url ct doc fav :=
  extract_eq_spec url ct doc fav

/-- C2, counterexample: for the `maxLength` value `L = 0` (which satisfies
`L >= 0`), `get_page_content` on `contentDoc` returns `"hi"`, whose length
`2` exceeds `L`: `Number(0) || 5000` discards the requested limit. -/
theorem c2_counterexample :
    ¬ ((getPageContent contentDoc (some 0)).length ≤ 0) := by decide

/-- C2, amended: for every `maxLength` value `L >= 1`, the text returned
by `get_page_content` has length at most `L`; (for `L = 0` the effective
limit is the default 5000, see C9). -/
theorem c2_amended_truncation (doc : NodeList) (L : Int) (h : 1 ≤ L) :
    ((getPageContent doc (some L)).length : Int) ≤ L := by
  have hL : jsNumOr 5000 (some L) = L := by
    simp only [jsNumOr]
    rw [if_neg (by omega)]
  unfold getPageContent
  rw [hL]
  exact jsSliceStr_length_le _ L (by omega)

/-- C2, witness: the amended bound at `L = 1` on `contentDoc`. -/
theorem c2_amended_witness :
    (1 : Int) ≤ 1 ∧ ((getPageContent contentDoc (some 1)).length : Int) ≤ 1 :=
  ⟨by decide, c2_amended_truncation contentDoc 1 (by decide)⟩

/-- C3: the `fetch_link_preview` guard at its failing input. A MISSING
`url` argument is coerced with `String(undefined)` to the truthy string
`"undefined"`, so the `if (!url)` guard passes and a network fetch of the
literal URL `"undefined"` is attempted — the claimed pre-fetch error is
raised only for an EMPTY string `url`. -/
theorem c3_guard_eval :
    fetchPreviewGuard none = .ok "undefined" ∧
    fetchPreviewGuard (some "") = .error "URL is required" :=
  ⟨rfl, rfl⟩

/-- C4: when the document carries a truthy `og:title` and a truthy
`twitter:title`, the extracted title is an `og:title` content (the last
such tag), never the Twitter value: `twitter:title` is applied only when
`preview.title` is still falsy. -/
theorem c4_og_title_beats_twitter (url : String) (ct fav : Option String)
    (doc : Doc)
    (h1 : doc.metas.filterMap (ogValF OgF.ti) ≠ [])
    (_h2 : doc.metas.filterMap (twValF TwF.ti) ≠ []) :
    ∃ t, (extractPreview url ct doc fav).title = some t ∧
      t ∈ doc.metas.filterMap (ogValF OgF.ti) := by
  rw [extract_eq_spec]
  obtain ⟨t, hm, he⟩ := lastD_of_ne_nil (ogContents OgF.ti doc)
    (by rw [ogContents_eq_metas]; exact h1)
  refine ⟨t, ?_, ?_⟩
  · show pick (lastD (ogContents OgF.ti doc) none)
      (pick (twContents TwF.ti doc).head? (jsOrUndef (jsTrim doc.titleText)))
        = some t
    rw [he]
    rfl
  · rw [← ogContents_eq_metas]
    exact hm

/-- C4, witness: on `docBoth` the title is the `og:title` value `"OG"`. -/
theorem c4_witness :
    docBoth.metas.filterMap (ogValF OgF.ti) ≠ [] ∧
    docBoth.metas.filterMap (twValF TwF.ti) ≠ [] ∧
    ∃ t, (extractPreview "u" none docBoth none).title = some t ∧
      t ∈ docBoth.metas.filterMap (ogValF OgF.ti) :=
  ⟨by decide, by decide,
    c4_og_title_beats_twitter "u" none none docBoth (by decide) (by decide)⟩

/-- C5: whenever the favicon probe fails (unparsable URL, probe fetch
error, or non-`ok` probe response), `getFavicon` returns `none` instead of
propagating an error, and the enclosing `fetchLinkPreview` still succeeds,
with the `favicon` field absent. -/
theorem c5_favicon_never_fails (parseOrigin : String → Option String)
    (fetcher : String → Except FetchError FetchResponse) (url : String)
    (resp : FetchResponse)
    (hpage : fetcher url = .ok resp)
    (hfail : faviconFails parseOrigin fetcher url = true) :
    getFavicon parseOrigin fetcher url = none ∧
    fetchLinkPreviewM parseOrigin fetcher url =
      .ok (extractPreview url resp.contentType resp.doc none) := by
  have hfav : getFavicon parseOrigin fetcher url = none := by
    unfold getFavicon
    unfold faviconFails at hfail
    cases hpo : parseOrigin url with
    | none => rfl
    | some origin =>
      rw [hpo] at hfail
      dsimp only at hfail ⊢
      cases hf : fetcher (origin ++ "/favicon.ico") with
      | error e => rfl
      | ok r =>
        dsimp only at hfail ⊢
        rw [hf] at hfail
        simp at hfail
        simp [hfail]
  refine ⟨hfav, ?_⟩
  unfold fetchLinkPreviewM
  rw [hpage, hfav]

/-- C5, witness: in the world `fetcherW` the favicon probe gets a
non-`ok` response while the page fetch succeeds; the preview call
succeeds with no favicon. -/
theorem c5_witness :
    fetcherW "http://e.com/x"
        = .ok { ok := true, contentType := none, doc := emptyDoc } ∧
    faviconFails poW fetcherW "http://e.com/x" = true ∧
    (getFavicon poW fetcherW "http://e.com/x" = none ∧
     fetchLinkPreviewM poW fetcherW "http://e.com/x" =
       .ok (extractPreview "http://e.com/x" none emptyDoc none)) :=
  ⟨rfl, rfl,
    c5_favicon_never_fails poW fetcherW "http://e.com/x"
      { ok := true, contentType := none, doc := emptyDoc } rfl rfl⟩

/-- C6: a document with no truthy `og:title`, no truthy `twitter:title`
and a whitespace-only (or absent) `<title>` text yields a preview whose
`title` is absent — never an empty string, because the fallback applies
`|| undefined` after trimming. -/
theorem c6_title_absent (url : String) (ct fav : Option String) (doc : Doc)
    (h1 : doc.metas.filterMap (ogValF OgF.ti) = [])
    (h2 : doc.metas.filterMap (twValF TwF.ti) = [])
    (h3 : jsTrim doc.titleText = "") :
    (extractPreview url ct doc fav).title = none := by
  rw [extract_eq_spec]
  show pick (lastD (ogContents OgF.ti doc) none)
    (pick (twContents TwF.ti doc).head? (jsOrUndef (jsTrim doc.titleText)))
      = none
  rw [ogContents_eq_metas, twContents_eq_metas, h1, h2, h3]
  rfl

/-- C6, witness: on `docBare` (no metas, whitespace `<title>`), the title
field is absent. -/
theorem c6_witness :
    docBare.metas.filterMap (ogValF OgF.ti) = [] ∧
    docBare.metas.filterMap (twValF TwF.ti) = [] ∧
    jsTrim docBare.titleText = "" ∧
    (extractPreview "u" none docBare none).title = none :=
  ⟨rfl, rfl, by decide, c6_title_absent "u" none none docBare rfl rfl (by decide)⟩

/-- C7, counterexample: `scriptDoc` contains a `<script>` whose text is
`"ab"`, and the same text occurs in a `<p>` element; the `get_page_content`
output is `"ab"`, so the script's text DOES appear as a substring of the
output — removal prevents contribution, not coincidental occurrence. -/
theorem c7_counterexample :
    tagTextsList "script" scriptDoc = ["ab"] ∧
    subB "ab".data (getPageContent scriptDoc none).data = true :=
  ⟨by decide, by decide⟩

/-- C7, amended: boilerplate elements are removed before any text
extraction, so `<script>` elements contribute no characters to the
output: deleting every `<script>` element from the document leaves the
`get_page_content` output unchanged. (A string equal to a script's text
can still appear when the same text occurs outside boilerplate, as the
counterexample shows.) -/
theorem c7_amended_script_invariance (doc : NodeList) (maxLenArg : Option Int) :
    getPageContent (stripList doc) maxLenArg = getPageContent doc maxLenArg := by
  unfold getPageContent selectContent
  rw [prune_strip_list doc]

/-- C8, counterexample: `blocks11` holds eleven distinct blocks, each with
a resolvable link and non-empty title; the block `mkBlock 10` satisfies
both inclusion conditions, yet no returned result carries its URL `"u10"`
— `searchWeb` truncates to ten results, so inclusion is not an `iff` of
the two conditions alone. -/
theorem c8_counterexample :
    mkBlock 10 ∈ blocks11 ∧
    (∃ u, (mkBlock 10).href = some u ∧ u ≠ "") ∧
    jsTrim (mkBlock 10).titleRaw ≠ "" ∧
    ∀ r ∈ searchWebResults blocks11, r.url ≠ "u10" :=
  ⟨by decide, by decide, by decide, by decide⟩

/-- C8, amended: the block SCAN includes a block iff it has a resolvable
(present and non-empty) link and non-empty trimmed title text; blocks
missing either are silently skipped; an included block with an absent
snippet (empty snippet text) gets the empty-string snippet; and
`searchWeb` returns the first ten included blocks, in document order. -/
theorem c8_amended_inclusion (blocks : List ResultBlock) (b : ResultBlock) :
    ((blockResult b).isSome ↔
      (∃ u, b.href = some u ∧ u ≠ "") ∧ jsTrim b.titleRaw ≠ "") ∧
    (b.snippetRaw = "" → ∀ r, blockResult b = some r → r.snippet = "") ∧
    searchWebResults blocks = (blocks.filterMap blockResult).take 10 := by
  refine ⟨?_, ?_, ?_⟩
  · unfold blockResult
    cases hh : b.href with
    | none => simp
    | some u =>
      by_cases hu : u = ""
      · simp [hu]
      · by_cases ht : jsTrim b.titleRaw = ""
        · simp [hu, ht]
        · simp [hu, ht]
  · intro hs r hr
    unfold blockResult at hr
    cases hh : b.href with
    | none => rw [hh] at hr; cases hr
    | some u =>
      rw [hh] at hr
      dsimp only at hr
      split at hr
      · cases hr
      · split at hr
        · cases hr
        · cases hr
          show jsTrim b.snippetRaw = ""
          rw [hs]
          decide
  · unfold searchWebResults
    rw [searchScan_eq]

/-- C8, witness: the amended statement at the singleton scan input
`mkBlock 0`. -/
theorem c8_witness :
    ((blockResult (mkBlock 0)).isSome ↔
      (∃ u, (mkBlock 0).href = some u ∧ u ≠ "") ∧
        jsTrim (mkBlock 0).titleRaw ≠ "") ∧
    ((mkBlock 0).snippetRaw = "" →
      ∀ r, blockResult (mkBlock 0) = some r → r.snippet = "") ∧
    searchWebResults [mkBlock 0]
      = ([mkBlock 0].filterMap blockResult).take 10 :=
  c8_amended_inclusion [mkBlock 0] (mkBlock 0)

/-- C9: calling `get_page_content` with `maxLength = 0`, or with an
argument whose numeric coercion is `NaN` (modelled `none`), makes
`Number(args?.maxLength) || 5000` fall back to the default 5000, so the
call behaves exactly like a call without `maxLength` and may return up to
5000 characters. -/
theorem c9_zero_nan_default (doc : NodeList) :
    getPageContent doc (some 0) = getPageContent doc none ∧
    jsNumOr 5000 (some 0) = 5000 ∧
    jsNumOr 5000 none = 5000 ∧
    ((getPageContent doc (some 0)).length : Int) ≤ 5000 := by
  refine ⟨rfl, rfl, rfl, ?_⟩
  show ((jsSliceStr (normalizeWs (selectContent doc))
    (jsNumOr 5000 (some 0))).length : Int) ≤ 5000
  exact jsSliceStr_length_le _ _ (by decide)

/-- C10: the `search_web` tool returns at most ten results for every
query result page and every `numResults` argument: `searchWeb` itself
slices to ten before the handler applies its own `numResults` slice. -/
theorem c10_at_most_ten (blocks : List ResultBlock) (numArg : Option Int) :
    (searchTool blocks numArg).length ≤ 10 := by
  have h1 := jsSliceTake_le_length (jsNumOr 10 numArg) (searchWebResults blocks)
  have h2 : (searchWebResults blocks).length ≤ 10 := by
    unfold searchWebResults
    rw [List.length_take]
    omega
  unfold searchTool
  omega

end LinkPreviewMCP
